import Mathlib

/-!
# Verification of the tabular data transformation engine

A shallow embedding of the tabular engine described by the specification of
this repository (a columnar data container with reshape, binning, tabulation
and selection operators), together with proofs of the specified properties.

The repository's own files exercise the engine through concrete notebook
code; the engine operations themselves (Table construction, slicing,
filtering, binning, tabulation, melt / wide-to-long / pivot) are modelled
from the specification, faithful to its words.  Numeric values are modelled
exactly as rationals.
-/

/-- A `Cell` is a tagged value that may be `Missing` (spec §3): a closed
variant `Int | Float | String | Bool | Missing`, with `Float` modelled
exactly as a rational number. -/
inductive Cell where
  | int : Int → Cell
  | num : ℚ → Cell
  | str : String → Cell
  | bool : Bool → Cell
  | missing : Cell
deriving DecidableEq, Repr

/-- Modelled from the spec (§3 Table): an ordered collection of named
columns sharing one row dimension, stored row-major; `names` holds the
column names in declared order and each entry of `rows` is one row of
cells in that column order. -/
structure Table where
  names : List String
  rows : List (List Cell)
deriving DecidableEq, Repr

/-- Rectangularity invariant: every row has one cell per column. -/
def Table.Rect (t : Table) : Prop := ∀ r ∈ t.rows, r.length = t.names.length

/-- Row count of a table (first component of `shape()`). -/
def Table.rowCount (t : Table) : Nat := t.rows.length

/-- Column count of a table (second component of `shape()`). -/
def Table.colCount (t : Table) : Nat := t.names.length

/-- The error kinds of the engine (spec §7). -/
inductive TableError where
  | shapeMismatch
  | unknownColumn
  | indexOutOfRange
  | labelNotFound
  | typeMismatch
  | degenerateRange
  | labelCountMismatch
  | insufficientData
  | noMatchingColumns
  | inconsistentStubSuffixes
  | duplicateKey
  | ambiguousJoin
  | schemaMismatch
deriving DecidableEq, Repr

deriving instance DecidableEq for Except

/-! ## The derived-variable transforms of the source notebook

`03.03-pragmatic_matters.py` builds three derived columns from a Likert
`scores` column: `centered = scores - 4`, `opinion_strength =
abs(centered)`, and `opinion_direction = np.sign(scores - 4)`. -/

/-- `numpy.sign` on integers, as described in the source: negatives map to
`-1`, positives to `1`, zero stays `0`. -/
def npSign (x : Int) : Int := if x < 0 then -1 else if 0 < x then 1 else 0

/-- The `centered` column transform of the source: subtract 4 from a raw
Likert score. -/
def centered (s : Int) : Int := s - 4

/-- The `opinion_strength` column transform of the source: absolute value
of the centered score. -/
def opinion_strength (s : Int) : Int := |centered s|

/-- The `opinion_direction` column transform of the source: `np.sign` of
the centered score. -/
def opinion_direction (s : Int) : Int := npSign (s - 4)

/-- The `centered` column built from a whole `scores` column. -/
def centeredCol (scores : List Int) : List Int := scores.map centered

/-- The `opinion_strength` column built from a whole `scores` column. -/
def strengthCol (scores : List Int) : List Int := scores.map opinion_strength

/-- The `opinion_direction` column built from a whole `scores` column. -/
def directionCol (scores : List Int) : List Int := scores.map opinion_direction

theorem npSign_mul_abs (x : Int) : npSign x * |x| = x := by
  rcases lt_trichotomy x 0 with h | h | h
  · simp [npSign, h, abs_of_neg h]
  · simp [npSign, h]
  · simp [npSign, h, not_lt.mpr h.le, abs_of_pos h]

/-- C10: for every score value `s`, `opinion_direction s * opinion_strength s
= centered s`, and hence the direction and strength columns pointwise
reconstruct the centered column for every scores column. -/
theorem direction_mul_strength_eq_centered :
    (∀ s : Int, opinion_direction s * opinion_strength s = centered s) ∧
    (∀ scores : List Int,
      List.zipWith (· * ·) (directionCol scores) (strengthCol scores) =
        centeredCol scores) := by
  have key : ∀ s : Int, opinion_direction s * opinion_strength s = centered s := by
    intro s
    simpa [opinion_direction, opinion_strength, centered] using npSign_mul_abs (s - 4)
  refine ⟨key, ?_⟩
  intro scores
  induction scores with
  | nil => rfl
  | cons a l ih =>
      simp only [directionCol, strengthCol, centeredCol, List.map_cons,
        List.zipWith_cons_cons] at *
      rw [key a, ih]

/-! ## Positional slicing (spec §4.3) -/

/-- Negative positions count from the end of the table: a negative `v`
denotes position `v + n`. -/
def normPos (n : Nat) (v : Int) : Int := if v < 0 then v + n else v

/-- Modelled from the spec (§4.3 `slicePositional`, not itself under
`src/`): the row positions selected by a slice `[start : stop : step]` over
`n` rows, with the half-open convention the source material emphasizes —
`stop` exclusive, negative positions counting from the end, bounds clamped
to the valid range, `step` possibly negative (`step = 0` selects nothing). -/
def sliceIndices (n : Nat) (start stop step : Int) : List Nat :=
  if 0 < step then
    let s := (min (n : Int) (normPos n start)).toNat
    let e := (min (n : Int) (normPos n stop)).toNat
    let st := step.toNat
    (List.range ((e - s + st - 1) / st)).map (fun k => s + k * st)
  else if step < 0 then
    let s := min ((n : Int) - 1) (normPos n start)
    let e := max (-1) (normPos n stop)
    let st := -step
    if s < 0 then []
    else (List.range ((s - e + st - 1) / st).toNat).map (fun k => (s - k * st).toNat)
  else []

/-- `slicePositional(start, stop, step)`: the table holding the rows at the
selected positions, in selection order. -/
def Table.slicePositional (t : Table) (start stop step : Int) : Table :=
  { names := t.names,
    rows := (sliceIndices t.rows.length start stop step).map (fun i => t.rows.getD i []) }

/-- Reading positions `0, 1, ..., m-1` of a list with `m` within bounds
materializes its `m`-element prefix. -/
theorem range_map_getD_eq_take {α : Type} (l : List α) (d : α) (m : Nat)
    (hm : m ≤ l.length) :
    (List.range m).map (fun i => l.getD i d) = l.take m := by
  apply List.ext_getElem
  · rw [List.length_map, List.length_range, List.length_take]
    omega
  · intro i h1 h2
    rw [List.length_map, List.length_range] at h1
    have hi : i < l.length := lt_of_lt_of_le h1 hm
    simp only [List.getElem_map, List.getElem_range]
    rw [List.getD_eq_getElem _ _ hi, List.getElem_take]

/-- C3: positional slicing is half-open and clamped — `slicePositional 0 n`
selects exactly the positions `0 .. min(n, rowCount) - 1` (the stop bound
is exclusive), so it returns the table's first `min n rowCount` rows in
order and its row count is `min n rowCount`; and a negative start or stop
position denotes the same slice as that position counted from the end of
the table. -/
theorem slicePositional_halfOpen_clamped (t : Table) (n : Int) (hn : 0 ≤ n) :
    sliceIndices t.rowCount 0 n 1 = List.range (min n.toNat t.rowCount) ∧
    (t.slicePositional 0 n 1).rows = t.rows.take (min n.toNat t.rowCount) ∧
    (t.slicePositional 0 n 1).rowCount = min n.toNat t.rowCount ∧
    (∀ start stop step : Int, start < 0 → -(t.rowCount : Int) ≤ start →
      sliceIndices t.rowCount start stop step =
        sliceIndices t.rowCount (start + t.rowCount) stop step) ∧
    (∀ start stop step : Int, stop < 0 → -(t.rowCount : Int) ≤ stop →
      sliceIndices t.rowCount start stop step =
        sliceIndices t.rowCount start (stop + t.rowCount) step) := by
  have hnorm : ∀ v : Int, v < 0 → -(t.rowCount : Int) ≤ v →
      normPos t.rowCount v = normPos t.rowCount (v + t.rowCount) := by
    intro v hv hv'
    simp only [normPos, if_pos hv]
    rw [if_neg (by omega)]
  have hidx : sliceIndices t.rowCount 0 n 1 = List.range (min n.toNat t.rowCount) := by
    simp only [sliceIndices, if_pos (show (0:Int) < 1 by norm_num), normPos,
      if_neg (show ¬ (0:Int) < 0 by norm_num), if_neg (not_lt.mpr hn)]
    have h0 : (min (t.rowCount : Int) 0).toNat = 0 := by omega
    have he : (min (t.rowCount : Int) n).toNat = min n.toNat t.rowCount := by omega
    have hst : (1 : Int).toNat = 1 := rfl
    rw [h0, he, hst]
    have hc : (min n.toNat t.rowCount - 0 + 1 - 1) / 1 = min n.toNat t.rowCount := by
      omega
    rw [hc]
    have hf : (fun k : Nat => 0 + k * 1) = (id : Nat → Nat) := by
      funext k
      simp
    rw [hf, List.map_id]
  have hrows : (t.slicePositional 0 n 1).rows = t.rows.take (min n.toNat t.rowCount) := by
    show (sliceIndices t.rows.length 0 n 1).map (fun i => t.rows.getD i []) = _
    rw [show t.rows.length = t.rowCount from rfl, hidx]
    exact range_map_getD_eq_take t.rows [] _ (Nat.min_le_right _ _)
  refine ⟨hidx, hrows, ?_, ?_, ?_⟩
  · show (t.slicePositional 0 n 1).rows.length = _
    rw [hrows, List.length_take]
    have h1 := Nat.min_le_right n.toNat t.rowCount
    have h2 : t.rows.length = t.rowCount := rfl
    omega
  · intro start stop step h1 h2
    rw [sliceIndices, sliceIndices, hnorm start h1 h2]
  · intro start stop step h1 h2
    rw [sliceIndices, sliceIndices, hnorm stop h1 h2]

theorem slicePositional_halfOpen_clamped_witness :
    (0 : Int) ≤ 2 ∧
    sliceIndices (Table.mk ["age"] [[Cell.int 17], [Cell.int 19], [Cell.int 21]]).rowCount
        0 2 1 =
      List.range (min (Int.toNat 2)
        (Table.mk ["age"] [[Cell.int 17], [Cell.int 19], [Cell.int 21]]).rowCount) ∧
    ((Table.mk ["age"] [[Cell.int 17], [Cell.int 19], [Cell.int 21]]).slicePositional
        0 2 1).rows =
      (Table.mk ["age"] [[Cell.int 17], [Cell.int 19], [Cell.int 21]]).rows.take
        (min (Int.toNat 2)
          (Table.mk ["age"] [[Cell.int 17], [Cell.int 19], [Cell.int 21]]).rowCount) ∧
    ((Table.mk ["age"] [[Cell.int 17], [Cell.int 19], [Cell.int 21]]).slicePositional
        0 2 1).rowCount =
      min (Int.toNat 2)
        (Table.mk ["age"] [[Cell.int 17], [Cell.int 19], [Cell.int 21]]).rowCount :=
  ⟨by norm_num,
   (slicePositional_halfOpen_clamped
      (Table.mk ["age"] [[Cell.int 17], [Cell.int 19], [Cell.int 21]]) 2 (by norm_num)).1,
   (slicePositional_halfOpen_clamped
      (Table.mk ["age"] [[Cell.int 17], [Cell.int 19], [Cell.int 21]]) 2 (by norm_num)).2.1,
   (slicePositional_halfOpen_clamped
      (Table.mk ["age"] [[Cell.int 17], [Cell.int 19], [Cell.int 21]]) 2 (by norm_num)).2.2.1⟩

/-! ## Boolean-mask filtering (spec §4.4, source `df[df['age'] > 21]`) -/

/-- Apply a boolean mask to a list, keeping the elements at the positions
where the mask holds `true` — the mechanism behind `df[mask]` filtering in
the source notebook. -/
def applyMask {α : Type} : List Bool → List α → List α
  | true :: ms, a :: l => a :: applyMask ms l
  | false :: ms, _ :: l => applyMask ms l
  | _, _ => []

/-- Modelled from the spec (§4.4 `filter`, not itself under `src/`): the
predicate receives a row view; the boolean mask it induces is applied both
to the rows and to the row index, so kept rows stay in original relative
order and keep their original labels. -/
def filterTable (idx : List Cell) (t : Table) (p : List Cell → Bool) :
    List Cell × Table :=
  (applyMask (t.rows.map p) idx,
   { names := t.names, rows := applyMask (t.rows.map p) t.rows })

theorem applyMask_map_filter {α : Type} (p : α → Bool) (l : List α) :
    applyMask (l.map p) l = l.filter p := by
  induction l with
  | nil => rfl
  | cons a l ih =>
      cases hpa : p a <;> simp [applyMask, List.filter_cons, hpa, ih]

theorem applyMask_positions {α β : Type} (p : α → Bool) (dα : α) (dβ : β) :
    ∀ (l : List α) (idx : List β), idx.length = l.length →
      applyMask (l.map p) idx =
        ((List.range l.length).filter (fun i => p (l.getD i dα))).map
          (fun i => idx.getD i dβ) := by
  intro l
  induction l with
  | nil =>
      intro idx h
      cases idx with
      | nil => rfl
      | cons b bs => simp at h
  | cons a l ih =>
      intro idx h
      cases idx with
      | nil => simp at h
      | cons b bs =>
          have hlen : bs.length = l.length := by simpa using h
          have h1 : ((fun i => p ((a :: l).getD i dα)) ∘ Nat.succ) =
              (fun i => p (l.getD i dα)) := by
            funext i; rfl
          have h2 : ((fun i => (b :: bs).getD i dβ) ∘ Nat.succ) =
              (fun i => bs.getD i dβ) := by
            funext i; rfl
          have htail :
              ((List.map Nat.succ (List.range l.length)).filter
                  (fun i => p ((a :: l).getD i dα))).map
                (fun i => (b :: bs).getD i dβ) =
              ((List.range l.length).filter (fun i => p (l.getD i dα))).map
                (fun i => bs.getD i dβ) := by
            rw [List.filter_map, List.map_map, h1, h2]
          have h0 : (a :: l).getD 0 dα = a := rfl
          cases hpa : p a with
          | false =>
              show applyMask (p a :: List.map p l) (b :: bs) = _
              rw [hpa]
              show applyMask (List.map p l) bs = _
              rw [ih bs hlen, List.length_cons, List.range_succ_eq_map,
                List.filter_cons, h0, hpa, if_neg (by simp), htail]
          | true =>
              show applyMask (p a :: List.map p l) (b :: bs) = _
              rw [hpa]
              show b :: applyMask (List.map p l) bs = _
              rw [ih bs hlen, List.length_cons, List.range_succ_eq_map,
                List.filter_cons, h0, hpa, if_pos rfl, List.map_cons, htail]
              rfl

/-- C9: filtering keeps exactly the rows on which the predicate is true, in
their original relative order (the kept rows are `rows.filter p`), the
column schema is unchanged, and the derived Index is the subsequence of the
original Index at the kept positions. -/
theorem filter_keeps_rows_and_index (idx : List Cell) (t : Table)
    (p : List Cell → Bool) (h : idx.length = t.rows.length) :
    (filterTable idx t p).2.names = t.names ∧
    (filterTable idx t p).2.rows = t.rows.filter p ∧
    (filterTable idx t p).1 =
      ((List.range t.rows.length).filter (fun i => p (t.rows.getD i []))).map
        (fun i => idx.getD i Cell.missing) := by
  refine ⟨rfl, ?_, ?_⟩
  · exact applyMask_map_filter p t.rows
  · exact applyMask_positions p [] Cell.missing t.rows idx h

theorem filter_keeps_rows_and_index_witness :
    ([Cell.int 0, Cell.int 1, Cell.int 2] : List Cell).length =
      (Table.mk ["age"] [[Cell.int 17], [Cell.int 37], [Cell.int 47]]).rows.length ∧
    ((filterTable [Cell.int 0, Cell.int 1, Cell.int 2]
        (Table.mk ["age"] [[Cell.int 17], [Cell.int 37], [Cell.int 47]])
        (fun r => match r.getD 0 Cell.missing with
                  | Cell.int a => decide (21 < a)
                  | _ => false)).2.names =
        (Table.mk ["age"] [[Cell.int 17], [Cell.int 37], [Cell.int 47]]).names ∧
      (filterTable [Cell.int 0, Cell.int 1, Cell.int 2]
        (Table.mk ["age"] [[Cell.int 17], [Cell.int 37], [Cell.int 47]])
        (fun r => match r.getD 0 Cell.missing with
                  | Cell.int a => decide (21 < a)
                  | _ => false)).2.rows =
        (Table.mk ["age"] [[Cell.int 17], [Cell.int 37], [Cell.int 47]]).rows.filter
          (fun r => match r.getD 0 Cell.missing with
                    | Cell.int a => decide (21 < a)
                    | _ => false) ∧
      (filterTable [Cell.int 0, Cell.int 1, Cell.int 2]
        (Table.mk ["age"] [[Cell.int 17], [Cell.int 37], [Cell.int 47]])
        (fun r => match r.getD 0 Cell.missing with
                  | Cell.int a => decide (21 < a)
                  | _ => false)).1 =
        ((List.range
            (Table.mk ["age"] [[Cell.int 17], [Cell.int 37], [Cell.int 47]]).rows.length).filter
          (fun i =>
            (fun r => match r.getD 0 Cell.missing with
                      | Cell.int a => decide (21 < a)
                      | _ => false)
              ((Table.mk ["age"] [[Cell.int 17], [Cell.int 37], [Cell.int 47]]).rows.getD i []))).map
          (fun i => ([Cell.int 0, Cell.int 1, Cell.int 2] : List Cell).getD i Cell.missing)) :=
  ⟨rfl,
   filter_keeps_rows_and_index [Cell.int 0, Cell.int 1, Cell.int 2]
     (Table.mk ["age"] [[Cell.int 17], [Cell.int 37], [Cell.int 47]])
     (fun r => match r.getD 0 Cell.missing with
               | Cell.int a => decide (21 < a)
               | _ => false) rfl⟩

/-! ## Construction and value semantics (spec §3, §4.3, §6; source
`pd.DataFrame({'age': age, ...})` and the narrated guarantee that the
resulting dataframe is self-contained) -/

/-- A store of mutable columnar collections, addressed by position: the
model of the raw Python list variables (`age`, `score`, `rt`, `group`)
that a Table is constructed from and that can be mutated afterwards. -/
abbrev Store := List (List Cell)

/-- A columnar source (spec §6): column names paired with the store
addresses of the backing collections. -/
structure ColumnarSource where
  names : List String
  addrs : List Nat
deriving DecidableEq, Repr

/-- In-place mutation of one source collection: overwrite the collection
at address `a` with `v`. -/
def storeWrite (st : Store) (a : Nat) (v : List Cell) : Store := st.set a v

/-- Modelled from the spec (§4.3 `fromColumns` with the §3 copy-on-construct
value semantics, not itself under `src/`): construction dereferences each
source collection in the store once and copies the cell values into the new
Table; it fails with `ShapeMismatch` if the sequences differ in length. -/
def fromColumns (st : Store) (src : ColumnarSource) : Except TableError Table :=
  let cols := src.addrs.map (fun a => st.getD a [])
  let n := (cols.headD []).length
  if cols.all (fun c => c.length == n) then
    Except.ok { names := src.names,
                rows := (List.range n).map
                  (fun i => cols.map (fun c => c.getD i Cell.missing)) }
  else Except.error TableError.shapeMismatch

/-- Reading cell `(i, j)` of an already-constructed Table in the current
store state; the Table holds its own copied cells, so the read never
dereferences the store. -/
def readCell (st : Store) (t : Table) (i j : Nat) : Cell :=
  (t.rows.getD i []).getD j Cell.missing

/-- C2: copy-on-construct value semantics — every cell of a Table read
after any mutation of a source collection equals the cell read before the
mutation, and each cell is the copy of the corresponding source value taken
from the store as it was at construction time. -/
theorem fromColumns_copy_on_construct (st : Store) (src : ColumnarSource)
    (t : Table) (h : fromColumns st src = Except.ok t) :
    (∀ (a : Nat) (v : List Cell) (i j : Nat),
      readCell (storeWrite st a v) t i j = readCell st t i j) ∧
    (∀ i j : Nat, i < t.rowCount → j < src.addrs.length →
      readCell st t i j =
        (st.getD (src.addrs.getD j 0) []).getD i Cell.missing) := by
  constructor
  · intro a v i j
    rfl
  · intro i j hi hj
    rw [fromColumns] at h
    by_cases hall :
        ((src.addrs.map (fun a => st.getD a [])).all
          (fun c => c.length == ((src.addrs.map (fun a => st.getD a [])).headD []).length)) = true
    · rw [if_pos hall] at h
      have ht : t = Table.mk src.names
          ((List.range ((src.addrs.map (fun a => st.getD a [])).headD []).length).map
            (fun i => (src.addrs.map (fun a => st.getD a [])).map
              (fun c => c.getD i Cell.missing))) := by
        cases h
        rfl
      have hi' : i < ((src.addrs.map (fun a => st.getD a [])).headD []).length := by
        rw [Table.rowCount, ht] at hi
        simpa using hi
      have e0 : t.rows.getD i [] =
          (src.addrs.map (fun a => st.getD a [])).map (fun c => c.getD i Cell.missing) := by
        rw [ht]
        show (List.map _ (List.range _)).getD i [] = _
        rw [List.getD_eq_getElem?_getD, List.getElem?_map, List.getElem?_range hi']
        rfl
      rw [readCell, e0, List.map_map, List.getD_eq_getElem?_getD,
        List.getElem?_map, List.getElem?_eq_getElem hj]
      rw [List.getD_eq_getElem (n := j) src.addrs 0 hj]
      rfl
    · rw [if_neg hall] at h
      cases h

theorem fromColumns_copy_on_construct_witness :
    fromColumns [[Cell.int 17, Cell.int 19], [Cell.int 12, Cell.int 10]]
        (ColumnarSource.mk ["age", "score"] [0, 1]) =
      Except.ok (Table.mk ["age", "score"]
        [[Cell.int 17, Cell.int 12], [Cell.int 19, Cell.int 10]]) ∧
    ((∀ (a : Nat) (v : List Cell) (i j : Nat),
        readCell (storeWrite [[Cell.int 17, Cell.int 19], [Cell.int 12, Cell.int 10]] a v)
            (Table.mk ["age", "score"]
              [[Cell.int 17, Cell.int 12], [Cell.int 19, Cell.int 10]]) i j =
          readCell [[Cell.int 17, Cell.int 19], [Cell.int 12, Cell.int 10]]
            (Table.mk ["age", "score"]
              [[Cell.int 17, Cell.int 12], [Cell.int 19, Cell.int 10]]) i j) ∧
      (∀ i j : Nat,
        i < (Table.mk ["age", "score"]
              [[Cell.int 17, Cell.int 12], [Cell.int 19, Cell.int 10]]).rowCount →
        j < (ColumnarSource.mk ["age", "score"] [0, 1]).addrs.length →
        readCell [[Cell.int 17, Cell.int 19], [Cell.int 12, Cell.int 10]]
            (Table.mk ["age", "score"]
              [[Cell.int 17, Cell.int 12], [Cell.int 19, Cell.int 10]]) i j =
          ([[Cell.int 17, Cell.int 19], [Cell.int 12, Cell.int 10]].getD
              ((ColumnarSource.mk ["age", "score"] [0, 1]).addrs.getD j 0) []).getD
            i Cell.missing)) :=
  ⟨rfl,
   fromColumns_copy_on_construct
     [[Cell.int 17, Cell.int 19], [Cell.int 12, Cell.int 10]]
     (ColumnarSource.mk ["age", "score"] [0, 1])
     (Table.mk ["age", "score"] [[Cell.int 17, Cell.int 12], [Cell.int 19, Cell.int 10]])
     rfl⟩

/-! ## Normalizing a cross-tabulation column-wise (spec §4.6; source
`tabs/tabs.loc['coltotals']`) -/

/-- Reading position `j` of the image of `List.range w` under `f` gives
`f j` whenever `j < w`. -/
theorem range_map_getD {α : Type} {w j : Nat} (h : j < w) (f : Nat → α) (d : α) :
    ((List.range w).map f).getD j d = f j := by
  rw [List.getD_eq_getElem?_getD, List.getElem?_map, List.getElem?_range h]
  rfl

/-- Sum of pointwise quotients by a fixed rational. -/
theorem sum_map_div {α : Type} (l : List α) (f : α → ℚ) (T : ℚ) :
    (l.map (fun x => f x / T)).sum = (l.map f).sum / T := by
  induction l with
  | nil => simp
  | cons a l ih => simp [add_div, ih]

/-- The numeric value carried by a cell (`0` for non-numeric cells). -/
def cellQ : Cell → ℚ
  | Cell.num q => q
  | Cell.int n => (n : ℚ)
  | _ => 0

/-- Total of column `j` of a grid of counts. -/
def colTotal (grid : List (List ℚ)) (j : Nat) : ℚ :=
  (grid.map (fun r => r.getD j 0)).sum

/-- Modelled from the spec (§4.6 `normalize` with `axis = columns`, not
itself under `src/`): every cell of a cross-tabulation grid is divided by
its column total, except that a column whose total is `0` becomes all
`Missing` rather than dividing by zero. -/
def normalizeColumns (grid : List (List ℚ)) : List (List Cell) :=
  grid.map (fun r =>
    (List.range (grid.headD []).length).map (fun j =>
      if colTotal grid j = 0 then Cell.missing
      else Cell.num (r.getD j 0 / colTotal grid j)))

/-- C6: after column-wise normalization of a rectangular grid of counts,
every column whose original total was `0` is all `Missing`, and every other
column sums exactly to `1` (hence within the `1e-9` tolerance). -/
theorem normalizeColumns_col_sums (grid : List (List ℚ)) (j : Nat)
    (rect : ∀ r ∈ grid, r.length = (grid.headD []).length)
    (hj : j < (grid.headD []).length) :
    (colTotal grid j = 0 ∧
      ∀ row ∈ normalizeColumns grid, row.getD j Cell.missing = Cell.missing) ∨
    (colTotal grid j ≠ 0 ∧
      ((normalizeColumns grid).map (fun row => cellQ (row.getD j Cell.missing))).sum = 1 ∧
      |((normalizeColumns grid).map (fun row => cellQ (row.getD j Cell.missing))).sum - 1| ≤
        1 / 1000000000) := by
  by_cases hT : colTotal grid j = 0
  · left
    refine ⟨hT, ?_⟩
    intro row hrow
    rw [normalizeColumns] at hrow
    obtain ⟨r, _, rfl⟩ := List.mem_map.mp hrow
    rw [range_map_getD hj]
    rw [if_pos hT]
  · right
    have hsum :
        ((normalizeColumns grid).map (fun row => cellQ (row.getD j Cell.missing))).sum = 1 := by
      rw [normalizeColumns, List.map_map]
      have hcongr :
          grid.map ((fun row => cellQ (row.getD j Cell.missing)) ∘ (fun r =>
            (List.range (grid.headD []).length).map (fun j' =>
              if colTotal grid j' = 0 then Cell.missing
              else Cell.num (r.getD j' 0 / colTotal grid j')))) =
          grid.map (fun r => r.getD j 0 / colTotal grid j) := by
        refine List.map_congr_left ?_
        intro r _
        show cellQ (((List.range (grid.headD []).length).map _).getD j Cell.missing) = _
        rw [range_map_getD hj, if_neg hT]
        rfl
      rw [hcongr, sum_map_div grid (fun r => r.getD j 0) (colTotal grid j)]
      exact div_self hT
    refine ⟨hT, hsum, ?_⟩
    rw [hsum]
    norm_num

theorem normalizeColumns_col_sums_witness :
    (∀ r ∈ [[(2:ℚ), 0], [3, 0]], r.length = ([[(2:ℚ), 0], [3, 0]].headD []).length) ∧
    (0 < ([[(2:ℚ), 0], [3, 0]].headD []).length) ∧
    ((colTotal [[(2:ℚ), 0], [3, 0]] 0 = 0 ∧
      ∀ row ∈ normalizeColumns [[(2:ℚ), 0], [3, 0]],
        row.getD 0 Cell.missing = Cell.missing) ∨
    (colTotal [[(2:ℚ), 0], [3, 0]] 0 ≠ 0 ∧
      ((normalizeColumns [[(2:ℚ), 0], [3, 0]]).map
          (fun row => cellQ (row.getD 0 Cell.missing))).sum = 1 ∧
      |((normalizeColumns [[(2:ℚ), 0], [3, 0]]).map
          (fun row => cellQ (row.getD 0 Cell.missing))).sum - 1| ≤ 1 / 1000000000)) :=
  ⟨by decide, by decide,
   normalizeColumns_col_sums [[(2:ℚ), 0], [3, 0]] 0 (by decide) (by decide)⟩

/-! ## The Categorizer (spec §4.5; source `pd.cut` / `pd.qcut`) -/

/-- Minimum of a column of rationals (`0` on the empty column). -/
def listMin (l : List ℚ) : ℚ := l.foldr min (l.headD 0)

/-- Maximum of a column of rationals (`0` on the empty column). -/
def listMax (l : List ℚ) : ℚ := l.foldr max (l.headD 0)

theorem foldr_min_le (l : List ℚ) (init : ℚ) : ∀ x ∈ l, l.foldr min init ≤ x := by
  induction l with
  | nil => intro x hx; cases hx
  | cons a r ih =>
      intro x hx
      rcases List.mem_cons.mp hx with rfl | hx
      · exact min_le_left _ _
      · exact le_trans (min_le_right _ _) (ih x hx)

theorem le_foldr_max (l : List ℚ) (init : ℚ) : ∀ x ∈ l, x ≤ l.foldr max init := by
  induction l with
  | nil => intro x hx; cases hx
  | cons a r ih =>
      intro x hx
      rcases List.mem_cons.mp hx with rfl | hx
      · exact le_max_left _ _
      · exact le_trans (ih x hx) (le_max_right _ _)

theorem listMin_le {l : List ℚ} {x : ℚ} (hx : x ∈ l) : listMin l ≤ x :=
  foldr_min_le l (l.headD 0) x hx

theorem le_listMax {l : List ℚ} {x : ℚ} (hx : x ∈ l) : x ≤ listMax l :=
  le_foldr_max l (l.headD 0) x hx

/-- Search the interior edges for the first one at least `x`. -/
def binSearch (x : ℚ) : List ℚ → Option Nat
  | [] => none
  | e :: rest => if x ≤ e then some 0 else (binSearch x rest).map Nat.succ

/-- Modelled from the spec (§4.5 edge policy, not itself under `src/`): the
bin of `x` for a list of edges — `Missing` (`none`) below the first edge or
above the last, otherwise the first interval `(e_i, e_(i+1)]` (the very
first lower bound being inclusive) containing `x`. -/
def binIndexExpl (edges : List ℚ) (x : ℚ) : Option Nat :=
  match edges with
  | [] => none
  | e0 :: rest => if x < e0 then none else binSearch x rest

/-- A `Category` (spec §3): the ordered finite bin structure given by its
edges, plus the derived column assigning each input value its bin (bins are
identified positionally; `none` is `Missing`). -/
structure Category where
  edges : List ℚ
  assign : List (Option Nat)
deriving DecidableEq, Repr

/-- Modelled from the spec (§4.5 `cutExplicit`, not itself under `src/`):
bin a column by explicit edges, each bin `(lower, upper]` except the first,
which is `[lower, upper]`; out-of-range values map to `Missing`. -/
def cutExplicit (vals edges : List ℚ) : Category :=
  ⟨edges, vals.map (binIndexExpl edges)⟩

/-- The `binCount + 1` equal-width edges over `[min, max]` of a column. -/
def fwEdges (vals : List ℚ) (k : Nat) : List ℚ :=
  (List.range (k + 1)).map
    (fun i : Nat => listMin vals + (i : ℚ) * (listMax vals - listMin vals) / k)

/-- Modelled from the spec (§4.5 `cutFixedWidth`, not itself under `src/`):
divide `[min, max]` of the column into `binCount` equal-width bins and
categorize; fails with `DegenerateRange` when `min = max` and
`binCount > 1`. -/
def cutFixedWidth (vals : List ℚ) (k : Nat) : Except TableError Category :=
  if listMin vals = listMax vals ∧ 1 < k then Except.error TableError.degenerateRange
  else Except.ok (cutExplicit vals (fwEdges vals k))

/-- Membership of `x` in bin `i` of an edge list: lower bound exclusive
except for the very first bin, upper bound inclusive. -/
def memBin (edges : List ℚ) (i : Nat) (x : ℚ) : Prop :=
  (if i = 0 then edges.getD 0 0 ≤ x else edges.getD i 0 < x) ∧
    x ≤ edges.getD (i + 1) 0

theorem binSearch_found (x : ℚ) :
    ∀ l : List ℚ, (∃ j, j < l.length ∧ x ≤ l.getD j 0) →
      ∃ i, binSearch x l = some i ∧ i < l.length ∧ x ≤ l.getD i 0 ∧
        ∀ j, j < i → l.getD j 0 < x := by
  intro l
  induction l with
  | nil =>
      rintro ⟨j, hj, -⟩
      exact absurd hj (Nat.not_lt_zero j)
  | cons e rest ih =>
      rintro ⟨j, hj, hxj⟩
      by_cases hxe : x ≤ e
      · refine ⟨0, by simp [binSearch, hxe], Nat.succ_pos _, by simpa using hxe, ?_⟩
        intro j hj0
        exact absurd hj0 (Nat.not_lt_zero j)
      · have hex' : ∃ j', j' < rest.length ∧ x ≤ rest.getD j' 0 := by
          cases j with
          | zero => exact absurd (by simpa using hxj) hxe
          | succ j' => exact ⟨j', by simpa using hj, by simpa using hxj⟩
        obtain ⟨i, hbi, hilen, hxi, hmin⟩ := ih hex'
        refine ⟨i + 1, by simp [binSearch, hxe, hbi], by simpa using Nat.succ_lt_succ hilen,
          by simpa using hxi, ?_⟩
        intro j hji
        cases j with
        | zero => simpa using not_le.mp hxe
        | succ j' =>
            have := hmin j' (Nat.lt_of_succ_lt_succ hji)
            simpa using this

theorem binIndexExpl_eq_tail (edges : List ℚ) (x : ℚ) (hne : edges ≠ [])
    (hge : edges.getD 0 0 ≤ x) :
    binIndexExpl edges x = binSearch x edges.tail := by
  cases edges with
  | nil => exact absurd rfl hne
  | cons e rest =>
      have : ¬ x < e := not_lt.mpr (by simpa using hge)
      simp [binIndexExpl, this]

theorem getD_tail' {α : Type} (l : List α) (j : Nat) (d : α) (hne : l ≠ []) :
    l.tail.getD j d = l.getD (j + 1) d := by
  cases l with
  | nil => exact absurd rfl hne
  | cons a r => rfl

/-- C4 (amended): for a column with `min < max` and `binCount = k ≥ 1`,
`cutFixedWidth` succeeds and defines exactly `k` bins (`k + 1` edges) over
`[min, max]`, and every input value is assigned a bin and lies in exactly
one bin under the edge policy — every bin `(lower, upper]` except the
first, which is `[lower, upper]`. -/
theorem cutFixedWidth_partition (vals : List ℚ) (k : Nat)
    (hk : 1 ≤ k) (hlt : listMin vals < listMax vals) :
    cutFixedWidth vals k = Except.ok (cutExplicit vals (fwEdges vals k)) ∧
    (fwEdges vals k).length = k + 1 ∧
    (∀ x ∈ vals, ∃ i : Nat,
      binIndexExpl (fwEdges vals k) x = some i ∧ i < k ∧
      memBin (fwEdges vals k) i x ∧
      ∀ i' : Nat, i' < k → memBin (fwEdges vals k) i' x → i' = i) := by
  have hkpos : (0:ℚ) < (k:ℚ) := by exact_mod_cast Nat.lt_of_lt_of_le Nat.zero_lt_one hk
  have hedge : ∀ i : Nat, i < k + 1 →
      (fwEdges vals k).getD i 0 =
        listMin vals + i * (listMax vals - listMin vals) / k := by
    intro i hik
    rw [fwEdges]
    exact range_map_getD hik _ 0
  have hlen : (fwEdges vals k).length = k + 1 := by
    rw [fwEdges, List.length_map, List.length_range]
  have hne : fwEdges vals k ≠ [] := by
    intro hnil
    rw [hnil] at hlen
    simp at hlen
  have hmono : ∀ a b : ℚ, a ≤ b →
      a * (listMax vals - listMin vals) / k ≤ b * (listMax vals - listMin vals) / k := by
    intro a b hab
    apply (div_le_div_right hkpos).mpr
    exact mul_le_mul_of_nonneg_right hab (by linarith)
  have he0 : (fwEdges vals k).getD 0 0 = listMin vals := by
    rw [hedge 0 (by omega)]
    push_cast
    ring
  have htail : ∀ j : Nat, j < k →
      (fwEdges vals k).tail.getD j 0 =
        listMin vals + (j + 1 : Nat) * (listMax vals - listMin vals) / k := by
    intro j hjk
    rw [getD_tail' _ _ _ hne, hedge (j + 1) (by omega)]
  have htlen : (fwEdges vals k).tail.length = k := by
    rw [List.length_tail, hlen]
    omega
  refine ⟨?_, hlen, ?_⟩
  · rw [cutFixedWidth, if_neg]
    rintro ⟨h1, -⟩
    exact absurd h1 (ne_of_lt hlt)
  · intro x hx
    have hlox : listMin vals ≤ x := listMin_le hx
    have hxhi : x ≤ listMax vals := le_listMax hx
    have hlast : x ≤ (fwEdges vals k).tail.getD (k - 1) 0 := by
      rw [htail (k - 1) (by omega)]
      have hk1 : (k - 1 + 1 : Nat) = k := by omega
      rw [hk1]
      rw [mul_div_cancel_left₀ _ (ne_of_gt hkpos)]
      linarith
    obtain ⟨i, hbs, hilen, hxi, hmin⟩ :=
      binSearch_found x (fwEdges vals k).tail ⟨k - 1, by omega, hlast⟩
    rw [htlen] at hilen
    refine ⟨i, ?_, hilen, ?_, ?_⟩
    · rw [binIndexExpl_eq_tail _ _ hne (he0 ▸ hlox)]
      exact hbs
    · constructor
      · by_cases hi0 : i = 0
        · rw [if_pos hi0, he0]
          exact hlox
        · rw [if_neg hi0]
          have hi1 : i - 1 < i := by omega
          have := hmin (i - 1) hi1
          rw [getD_tail' _ _ _ hne] at this
          have hieq : (i - 1 + 1 : Nat) = i := by omega
          rw [hieq] at this
          exact this
      · rw [← getD_tail' _ _ _ hne]
        exact hxi
    · intro i' hi'k hmem
      by_contra hne'
      rcases Nat.lt_or_ge i' i with hlt' | hge'
      · have h1 := hmin i' (by omega)
        rw [htail i' hi'k] at h1
        have h2 := hmem.2
        rw [hedge (i' + 1) (by omega)] at h2
        push_cast at h1 h2
        linarith
      · have hii' : i < i' := by omega
        have hi'0 : i' ≠ 0 := by omega
        have h1 := hmem.1
        rw [if_neg hi'0, hedge i' (by omega)] at h1
        have h2 : x ≤ (fwEdges vals k).tail.getD i 0 := hxi
        rw [htail i hilen] at h2
        have hle : ((i + 1 : Nat) : ℚ) ≤ ((i' : Nat) : ℚ) := by
          exact_mod_cast hii'
        have := hmono (i + 1 : Nat) i' hle
        push_cast at h1 h2 this
        linarith

/-- Remove duplicates keeping the first occurrence of each element, in
first-appearance order (the order `crossTab` and `pivot` use for the
distinct observed values of a column). -/
def dedupFirst {α : Type} [DecidableEq α] : List α → List α
  | [] => []
  | a :: l => a :: (dedupFirst l).filter (fun b => decide (b ≠ a))

/-- C4 counterexample: the column `[0, 1, 100, 101, 102]` has five distinct
values spanning a non-degenerate range, yet `cutFixedWidth` with
`binCount = 3` assigns only two distinct bin labels (the middle bin is
observed empty), refuting the claim that such a column yields exactly `k`
distinct bin labels. -/
theorem cutFixedWidth_observed_labels_counterexample :
    listMin [0, 1, 100, 101, 102] < listMax [0, 1, 100, 101, 102] ∧
    (dedupFirst ([0, 1, 100, 101, 102] : List ℚ)).length = 5 ∧
    cutFixedWidth [0, 1, 100, 101, 102] 3 =
      Except.ok (Category.mk [0, 34, 68, 102]
        [some 0, some 0, some 2, some 2, some 2]) ∧
    (dedupFirst (cutExplicit [0, 1, 100, 101, 102] [0, 34, 68, 102]).assign).length = 2 ∧
    (2 : Nat) ≠ 3 := by
  have hmin : listMin [0, 1, 100, 101, 102] = 0 := by decide
  have hmax : listMax [0, 1, 100, 101, 102] = 102 := by decide
  have hfw : fwEdges [0, 1, 100, 101, 102] 3 = [0, 34, 68, 102] := by
    rw [fwEdges, hmin, hmax]
    norm_num [List.range_succ]
  refine ⟨by decide, by decide, ?_, by decide, by decide⟩
  rw [cutFixedWidth, hfw, if_neg (by decide)]
  decide

theorem cutFixedWidth_partition_witness :
    1 ≤ 2 ∧ listMin [0, 1, 2, 3] < listMax [0, 1, 2, 3] ∧
    (cutFixedWidth [0, 1, 2, 3] 2 =
        Except.ok (cutExplicit [0, 1, 2, 3] (fwEdges [0, 1, 2, 3] 2)) ∧
      (fwEdges [0, 1, 2, 3] 2).length = 2 + 1 ∧
      (∀ x ∈ ([0, 1, 2, 3] : List ℚ), ∃ i : Nat,
        binIndexExpl (fwEdges [0, 1, 2, 3] 2) x = some i ∧ i < 2 ∧
        memBin (fwEdges [0, 1, 2, 3] 2) i x ∧
        ∀ i' : Nat, i' < 2 → memBin (fwEdges [0, 1, 2, 3] 2) i' x → i' = i)) :=
  ⟨by norm_num, by decide, cutFixedWidth_partition [0, 1, 2, 3] 2 (by norm_num) (by decide)⟩

/-- Insert a value into a sorted list of rationals. -/
def insertSorted (x : ℚ) : List ℚ → List ℚ
  | [] => [x]
  | a :: l => if x ≤ a then x :: a :: l else a :: insertSorted x l

/-- Sort a column of rationals ascending (insertion sort). -/
def sortQ : List ℚ → List ℚ
  | [] => []
  | a :: l => insertSorted a (sortQ l)

/-- Linear interpolation between the order statistics of a sorted column at
probability `p`: with `h = p * (n - 1)`, `i = ⌊h⌋`, the quantile is
`s_i + (h - i) * (s_(i+1) - s_i)`. -/
def qAt (s : List ℚ) (p : ℚ) : ℚ :=
  s.getD (Int.toNat ⌊p * ((s.length : ℚ) - 1)⌋) 0 +
    (p * ((s.length : ℚ) - 1) - (Int.toNat ⌊p * ((s.length : ℚ) - 1)⌋ : ℚ)) *
      (s.getD (Int.toNat ⌊p * ((s.length : ℚ) - 1)⌋ + 1) 0 -
        s.getD (Int.toNat ⌊p * ((s.length : ℚ) - 1)⌋) 0)

/-- Modelled from the spec (§4.5 `qcut` sample quantiles, not itself under
`src/`): the sample quantile of a column at probability `p`, by linear
interpolation between order statistics. -/
def quantileQ (vals : List ℚ) (p : ℚ) : ℚ := qAt (sortQ vals) p

/-- Modelled from the spec (§4.5 `qcut`, not itself under `src/`): compute
the sample quantiles at the given probabilities, then delegate to
`cutExplicit`; fails with `InsufficientData` on fewer than two values. -/
def qcut (vals : List ℚ) (qs : List ℚ) : Except TableError Category :=
  if vals.length < 2 then Except.error TableError.insufficientData
  else Except.ok (cutExplicit vals (qs.map (quantileQ vals)))

theorem binSearch_eq (x : ℚ) :
    ∀ (l : List ℚ) (i : Nat), i < l.length → x ≤ l.getD i 0 →
      (∀ j, j < i → l.getD j 0 < x) → binSearch x l = some i := by
  intro l
  induction l with
  | nil =>
      intro i hi
      exact absurd hi (Nat.not_lt_zero i)
  | cons e rest ih =>
      intro i hi hx hlt
      cases i with
      | zero =>
          have : x ≤ e := by simpa using hx
          simp [binSearch, this]
      | succ i' =>
          have he : e < x := by simpa using hlt 0 (Nat.succ_pos i')
          have hrec : binSearch x rest = some i' :=
            ih i' (by simpa using hi) (by simpa using hx)
              (fun j hj => by simpa using hlt (j + 1) (Nat.succ_lt_succ hj))
          simp [binSearch, not_le.mpr he, hrec]

/-- Under strictly increasing edges, a value equal to an interior edge is
assigned to the bin whose inclusive upper bound it is — the lower of the
two adjacent bins. -/
theorem binIndexExpl_tie_lower (edges : List ℚ)
    (hsort : List.Pairwise (· < ·) edges) (i : Nat) (hi : i + 1 < edges.length) :
    binIndexExpl edges (edges.getD (i + 1) 0) = some i := by
  have hget : ∀ a b : Nat, a < b → (hb : b < edges.length) →
      edges.getD a 0 < edges.getD b 0 := by
    intro a b hab hb
    rw [List.getD_eq_getElem _ _ (lt_trans hab hb), List.getD_eq_getElem _ _ hb]
    exact List.pairwise_iff_get.mp hsort ⟨a, lt_trans hab hb⟩ ⟨b, hb⟩ hab
  have hne : edges ≠ [] := by
    intro hnil
    rw [hnil] at hi
    simp at hi
  have he0 : edges.getD 0 0 ≤ edges.getD (i + 1) 0 :=
    le_of_lt (hget 0 (i + 1) (Nat.succ_pos i) hi)
  rw [binIndexExpl_eq_tail _ _ hne he0]
  apply binSearch_eq
  · rw [List.length_tail]
    omega
  · rw [getD_tail' _ _ _ hne]
  · intro j hj
    rw [getD_tail' _ _ _ hne]
    exact hget (j + 1) (i + 1) (by omega) hi

/-- C5: `qcut` computes sample quantiles by linear interpolation (the
median of `[1..10]` is `11/2`) and bins the column by those edges; on
`[1,...,10]` with quantiles `[0, 1/2, 1]` it produces exactly two bins of
five elements each, and a value equal to an interior quantile boundary is
assigned to the lower bin. -/
theorem qcut_half_split :
    qcut [1, 2, 3, 4, 5, 6, 7, 8, 9, 10] [0, 1/2, 1] =
      Except.ok (Category.mk [1, 11/2, 10]
        [some 0, some 0, some 0, some 0, some 0,
         some 1, some 1, some 1, some 1, some 1]) ∧
    quantileQ [1, 2, 3, 4, 5, 6, 7, 8, 9, 10] (1/2) = 11/2 ∧
    (List.countP (fun b => decide (b = some 0))
        [some 0, some 0, some 0, some 0, some 0,
         some 1, some 1, some 1, some 1, some 1] = 5 ∧
      List.countP (fun b => decide (b = some 1))
        [some 0, some 0, some 0, some 0, some 0,
         some 1, some 1, some 1, some 1, some 1] = 5) ∧
    (∀ edges : List ℚ, List.Pairwise (· < ·) edges →
      ∀ i : Nat, i + 1 < edges.length →
        binIndexExpl edges (edges.getD (i + 1) 0) = some i) := by
  have hs : sortQ [1, 2, 3, 4, 5, 6, 7, 8, 9, 10] =
      ([1, 2, 3, 4, 5, 6, 7, 8, 9, 10] : List ℚ) := by decide
  have hq5 : quantileQ [1, 2, 3, 4, 5, 6, 7, 8, 9, 10] (1/2) = 11/2 := by
    simp only [quantileQ, qAt, hs]
    have hidx : Int.toNat
        ⌊(1/2 : ℚ) * ((([1,2,3,4,5,6,7,8,9,10] : List ℚ).length : ℚ) - 1)⌋ = 4 := by
      norm_num
      decide
    rw [hidx]
    have g4 : ([1,2,3,4,5,6,7,8,9,10] : List ℚ).getD 4 0 = 5 := rfl
    have g5 : ([1,2,3,4,5,6,7,8,9,10] : List ℚ).getD (4+1) 0 = 6 := rfl
    rw [g4, g5]
    norm_num
  have hq0 : quantileQ [1, 2, 3, 4, 5, 6, 7, 8, 9, 10] 0 = 1 := by
    simp only [quantileQ, qAt, hs]
    have hidx : Int.toNat
        ⌊(0 : ℚ) * ((([1,2,3,4,5,6,7,8,9,10] : List ℚ).length : ℚ) - 1)⌋ = 0 := by
      norm_num
    rw [hidx]
    have g0 : ([1,2,3,4,5,6,7,8,9,10] : List ℚ).getD 0 0 = 1 := rfl
    have g1 : ([1,2,3,4,5,6,7,8,9,10] : List ℚ).getD (0+1) 0 = 2 := rfl
    rw [g0, g1]
    norm_num
  have hq1 : quantileQ [1, 2, 3, 4, 5, 6, 7, 8, 9, 10] 1 = 10 := by
    simp only [quantileQ, qAt, hs]
    have hidx : Int.toNat
        ⌊(1 : ℚ) * ((([1,2,3,4,5,6,7,8,9,10] : List ℚ).length : ℚ) - 1)⌋ = 9 := by
      norm_num
      decide
    rw [hidx]
    have g9 : ([1,2,3,4,5,6,7,8,9,10] : List ℚ).getD 9 0 = 10 := rfl
    have g10 : ([1,2,3,4,5,6,7,8,9,10] : List ℚ).getD (9+1) 0 = 0 := rfl
    rw [g9, g10]
    norm_num
  refine ⟨?_, hq5, ⟨by decide, by decide⟩, ?_⟩
  · rw [qcut, if_neg (by decide)]
    have hmap : ([0, 1/2, 1] : List ℚ).map (quantileQ [1, 2, 3, 4, 5, 6, 7, 8, 9, 10]) =
        [1, 11/2, 10] := by
      simp only [List.map_cons, List.map_nil, hq0, hq5, hq1]
    rw [hmap, cutExplicit]
    have hassign : ([1,2,3,4,5,6,7,8,9,10] : List ℚ).map (binIndexExpl [1, 11/2, 10]) =
        [some 0, some 0, some 0, some 0, some 0,
         some 1, some 1, some 1, some 1, some 1] := by
      norm_num [binIndexExpl, binSearch]
    rw [hassign]
  · intro edges hsort i hi
    exact binIndexExpl_tie_lower edges hsort i hi

theorem qcut_half_split_witness :
    List.Pairwise (· < ·) ([1, 5, 10] : List ℚ) ∧
    0 + 1 < ([1, 5, 10] : List ℚ).length ∧
    binIndexExpl [1, 5, 10] (([1, 5, 10] : List ℚ).getD (0 + 1) 0) = some 0 :=
  ⟨by decide, by decide, qcut_half_split.2.2.2 [1, 5, 10] (by decide) 0 (by decide)⟩

/-! ## The Reshaper: melt (spec §4.7; source `pd.melt(df, id_vars=['id','gender'])`) -/

/-- The positions of the id columns of `t`, in declared column order. -/
def idIdxOf (t : Table) (ids : List String) : List Nat :=
  (List.range t.names.length).filter (fun i => decide (t.names.getD i "" ∈ ids))

/-- The positions of the non-id (measured) columns of `t`, in declared
column order. -/
def dataIdxOf (t : Table) (ids : List String) : List Nat :=
  (List.range t.names.length).filter (fun i => !decide (t.names.getD i "" ∈ ids))

/-- Project a row onto a list of column positions. -/
def projCells (idxs : List Nat) (r : List Cell) : List Cell :=
  idxs.map (fun i => r.getD i Cell.missing)

/-- The names of the id columns of `t`, in declared column order. -/
def idNames (t : Table) (ids : List String) : List String :=
  (idIdxOf t ids).map (fun i => t.names.getD i "")

/-- One long-format row of `melt`: the id cells of the original row, the
originating column's name, and its cell value. -/
def meltRow (t : Table) (ids : List String) (d : Nat) (r : List Cell) : List Cell :=
  projCells (idIdxOf t ids) r ++ [Cell.str (t.names.getD d ""), r.getD d Cell.missing]

/-- Modelled from the spec (§4.7 `melt`, not itself under `src/`): every
non-id column contributes one long-format output row per original row,
holding the id-column values, the variable name, and the cell value; output
columns are the id columns followed by `variable` and `value`. -/
def melt (t : Table) (ids : List String) : Table :=
  { names := idNames t ids ++ ["variable", "value"],
    rows := (dataIdxOf t ids).flatMap (fun d => t.rows.map (meltRow t ids d)) }

theorem length_filter_partition {α : Type} (p : α → Bool) (l : List α) :
    (l.filter p).length + (l.filter (fun a => !p a)).length = l.length := by
  induction l with
  | nil => rfl
  | cons a l ih =>
      cases hpa : p a <;> simp [List.filter_cons, hpa, ← ih] <;> omega

/-- The id-column name list of `melt`: filtering the schema by membership
in the id set. -/
theorem idIdx_names (t : Table) (ids : List String) :
    (idIdxOf t ids).map (fun i => t.names.getD i "") =
      t.names.filter (fun n => decide (n ∈ ids)) := by
  have h1 := applyMask_positions (fun n => decide (n ∈ ids)) "" "" t.names t.names rfl
  have h2 := applyMask_map_filter (fun n => decide (n ∈ ids)) t.names
  rw [h2] at h1
  exact h1.symm

theorem idIdx_length (t : Table) (ids : List String)
    (hnodup : t.names.Nodup) (hidn : ids.Nodup) (hsub : ∀ n ∈ ids, n ∈ t.names) :
    (idIdxOf t ids).length = ids.length := by
  have hmap : (idIdxOf t ids).length =
      (t.names.filter (fun n => decide (n ∈ ids))).length := by
    rw [← idIdx_names t ids, List.length_map]
  rw [hmap]
  have hperm : (t.names.filter (fun n => decide (n ∈ ids))).Perm ids := by
    apply List.perm_of_nodup_nodup_toFinset_eq (hnodup.filter _) hidn
    ext x
    simp only [List.mem_toFinset, List.mem_filter, decide_eq_true_eq]
    exact ⟨fun h => h.2, fun h => ⟨hsub x h, h⟩⟩
  exact hperm.length_eq

/-- C8: melt cardinality — for a table with `Nodup` schema and an id-column
set of size `m` drawn from its columns, `melt` produces exactly
`rowCount * (colCount - m)` rows (one per (original row, non-id column)
pair), and its schema is the id columns followed by `variable`, `value`. -/
theorem melt_row_count (t : Table) (ids : List String)
    (hnodup : t.names.Nodup) (hidn : ids.Nodup) (hsub : ∀ n ∈ ids, n ∈ t.names) :
    (melt t ids).rowCount = t.rowCount * (t.colCount - ids.length) ∧
    (melt t ids).names =
      t.names.filter (fun n => decide (n ∈ ids)) ++ ["variable", "value"] := by
  constructor
  · have hdata : (dataIdxOf t ids).length = t.colCount - ids.length := by
      have hpart := length_filter_partition
        (fun i => decide (t.names.getD i "" ∈ ids)) (List.range t.names.length)
      have hid := idIdx_length t ids hnodup hidn hsub
      rw [idIdxOf] at hid
      rw [dataIdxOf, Table.colCount]
      rw [List.length_range] at hpart
      omega
    show ((dataIdxOf t ids).flatMap _).length = _
    rw [List.length_flatMap]
    have hconst : (dataIdxOf t ids).map
        (List.length ∘ (fun d => t.rows.map (meltRow t ids d))) =
        (dataIdxOf t ids).map (Function.const Nat t.rows.length) := by
      apply List.map_congr_left
      intro d _
      simp [Function.comp, Function.const]
    rw [hconst, List.map_const, List.sum_replicate, smul_eq_mul, hdata,
      Table.rowCount, Nat.mul_comm]
  · show (idIdxOf t ids).map (fun i => t.names.getD i "") ++ ["variable", "value"] = _
    rw [idIdx_names]

theorem melt_row_count_witness :
    (["id", "gender", "WMC_alcohol", "WMC_caffeine"] : List String).Nodup ∧
    (["id", "gender"] : List String).Nodup ∧
    (∀ n ∈ (["id", "gender"] : List String),
      n ∈ (["id", "gender", "WMC_alcohol", "WMC_caffeine"] : List String)) ∧
    ((melt (Table.mk ["id", "gender", "WMC_alcohol", "WMC_caffeine"]
        [[Cell.int 1, Cell.str "female", Cell.num 4, Cell.num 5],
         [Cell.int 2, Cell.str "male", Cell.num 6, Cell.num 7]])
        ["id", "gender"]).rowCount =
      (Table.mk ["id", "gender", "WMC_alcohol", "WMC_caffeine"]
        [[Cell.int 1, Cell.str "female", Cell.num 4, Cell.num 5],
         [Cell.int 2, Cell.str "male", Cell.num 6, Cell.num 7]]).rowCount *
        ((Table.mk ["id", "gender", "WMC_alcohol", "WMC_caffeine"]
          [[Cell.int 1, Cell.str "female", Cell.num 4, Cell.num 5],
           [Cell.int 2, Cell.str "male", Cell.num 6, Cell.num 7]]).colCount -
          (["id", "gender"] : List String).length) ∧
      (melt (Table.mk ["id", "gender", "WMC_alcohol", "WMC_caffeine"]
        [[Cell.int 1, Cell.str "female", Cell.num 4, Cell.num 5],
         [Cell.int 2, Cell.str "male", Cell.num 6, Cell.num 7]])
        ["id", "gender"]).names =
        (["id", "gender", "WMC_alcohol", "WMC_caffeine"] : List String).filter
          (fun n => decide (n ∈ (["id", "gender"] : List String))) ++
          ["variable", "value"]) :=
  ⟨by decide, by decide, by decide,
   melt_row_count (Table.mk ["id", "gender", "WMC_alcohol", "WMC_caffeine"]
      [[Cell.int 1, Cell.str "female", Cell.num 4, Cell.num 5],
       [Cell.int 2, Cell.str "male", Cell.num 6, Cell.num 7]])
     ["id", "gender"] (by decide) (by decide) (by decide)⟩

/-! ## The Reshaper: wide-to-long (spec §4.7; source `pd.wide_to_long(df,
stubnames=['WMC','RT'], i=['id','gender'], j='drug', sep='_', suffix='.+')`) -/

/-- Drop a literal character prefix, returning the remaining characters, or
`none` if the prefix does not match. -/
def dropChars : List Char → List Char → Option (List Char)
  | [], rest => some rest
  | _ :: _, [] => none
  | p :: ps, c :: cs => if p = c then dropChars ps cs else none

/-- The suffix of `n` after the literal prefix `pre`, when `pre` matches. -/
def suffixAfter (pre n : String) : Option String :=
  (dropChars pre.data n.data).map String.mk

/-- The suffixes observed for one stub: for every column name of the form
`stub ++ sep ++ suffix` with `suffix` accepted by the pattern, the suffix,
in column order. -/
def stubSuffixes (t : Table) (stub sep : String) (pat : String → Bool) : List String :=
  t.names.filterMap (fun n =>
    match suffixAfter (stub ++ sep) n with
    | some s => if pat s then some s else none
    | none => none)

/-- Modelled from the spec (§4.7 `wideToLong`, not itself under `src/`):
scan column names for `stub ++ separator ++ suffix` per stub; fail with
`NoMatchingColumns` if a stub has no match and with
`InconsistentStubSuffixes` unless all stubs observe the same suffix set;
otherwise emit one output row per (original row, suffix), with the id
columns, the label column holding the suffix, and one column per stub. -/
def wideToLong (t : Table) (stubs ids : List String) (labelCol sep : String)
    (pat : String → Bool) : Except TableError Table :=
  let suf := stubSuffixes t (stubs.headD "") sep pat
  if stubs.any (fun st => (stubSuffixes t st sep pat).isEmpty) then
    Except.error TableError.noMatchingColumns
  else if stubs.all (fun st =>
      (stubSuffixes t st sep pat).all (fun s => suf.contains s) &&
      suf.all (fun s => (stubSuffixes t st sep pat).contains s)) then
    Except.ok
      { names := (idIdxOf t ids).map (fun i => t.names.getD i "") ++ [labelCol] ++ stubs,
        rows := t.rows.flatMap (fun r =>
          suf.map (fun s =>
            projCells (idIdxOf t ids) r ++ [Cell.str s] ++
              stubs.map (fun st =>
                r.getD (List.indexOf (st ++ sep ++ s) t.names) Cell.missing))) }
  else Except.error TableError.inconsistentStubSuffixes

/-- C7: when `wideToLong` succeeds, it produces exactly one output row per
(original row, observed suffix) — `rowCount * |S|` rows, where `S` is the
suffix set observed for the first stub — and its schema is the id columns,
the label column, then one column per stub. -/
theorem wideToLong_shape (t : Table) (stubs ids : List String)
    (labelCol sep : String) (pat : String → Bool) (lt : Table)
    (h : wideToLong t stubs ids labelCol sep pat = Except.ok lt) :
    lt.rowCount = t.rowCount * (stubSuffixes t (stubs.headD "") sep pat).length ∧
    lt.names = (idIdxOf t ids).map (fun i => t.names.getD i "") ++ [labelCol] ++ stubs := by
  rw [wideToLong] at h
  by_cases h1 : (stubs.any (fun st => (stubSuffixes t st sep pat).isEmpty)) = true
  · rw [if_pos h1] at h
    cases h
  · rw [if_neg h1] at h
    by_cases h2 : (stubs.all (fun st =>
        (stubSuffixes t st sep pat).all
          (fun s => (stubSuffixes t (stubs.headD "") sep pat).contains s) &&
        (stubSuffixes t (stubs.headD "") sep pat).all
          (fun s => (stubSuffixes t st sep pat).contains s))) = true
    · rw [if_pos h2] at h
      cases h
      constructor
      · show (t.rows.flatMap _).length = _
        rw [List.length_flatMap]
        have hconst : t.rows.map (List.length ∘ (fun r =>
            (stubSuffixes t (stubs.headD "") sep pat).map (fun s =>
              projCells (idIdxOf t ids) r ++ [Cell.str s] ++
                stubs.map (fun st =>
                  r.getD (List.indexOf (st ++ sep ++ s) t.names) Cell.missing)))) =
            t.rows.map
              (Function.const (List Cell)
                (stubSuffixes t (stubs.headD "") sep pat).length) := by
          apply List.map_congr_left
          intro r _
          simp [Function.comp, Function.const]
        rw [hconst, List.map_const, List.sum_replicate, smul_eq_mul]
        rfl
      · rfl
    · rw [if_neg h2] at h
      cases h

theorem wideToLong_shape_witness :
    wideToLong
        (Table.mk ["id", "gender", "WMC_drugA", "WMC_drugB", "RT_drugA", "RT_drugB"]
          [[Cell.int 1, Cell.str "f", Cell.int 10, Cell.int 11, Cell.int 20, Cell.int 21],
           [Cell.int 2, Cell.str "m", Cell.int 12, Cell.int 13, Cell.int 22, Cell.int 23]])
        ["WMC", "RT"] ["id", "gender"] "drug" "_"
        (fun s => decide (s = "drugA" ∨ s = "drugB")) =
      Except.ok (Table.mk ["id", "gender", "drug", "WMC", "RT"]
        [[Cell.int 1, Cell.str "f", Cell.str "drugA", Cell.int 10, Cell.int 20],
         [Cell.int 1, Cell.str "f", Cell.str "drugB", Cell.int 11, Cell.int 21],
         [Cell.int 2, Cell.str "m", Cell.str "drugA", Cell.int 12, Cell.int 22],
         [Cell.int 2, Cell.str "m", Cell.str "drugB", Cell.int 13, Cell.int 23]]) ∧
    ((Table.mk ["id", "gender", "drug", "WMC", "RT"]
        [[Cell.int 1, Cell.str "f", Cell.str "drugA", Cell.int 10, Cell.int 20],
         [Cell.int 1, Cell.str "f", Cell.str "drugB", Cell.int 11, Cell.int 21],
         [Cell.int 2, Cell.str "m", Cell.str "drugA", Cell.int 12, Cell.int 22],
         [Cell.int 2, Cell.str "m", Cell.str "drugB", Cell.int 13, Cell.int 23]]).rowCount =
      (Table.mk ["id", "gender", "WMC_drugA", "WMC_drugB", "RT_drugA", "RT_drugB"]
          [[Cell.int 1, Cell.str "f", Cell.int 10, Cell.int 11, Cell.int 20, Cell.int 21],
           [Cell.int 2, Cell.str "m", Cell.int 12, Cell.int 13, Cell.int 22, Cell.int 23]]).rowCount *
        (stubSuffixes
          (Table.mk ["id", "gender", "WMC_drugA", "WMC_drugB", "RT_drugA", "RT_drugB"]
            [[Cell.int 1, Cell.str "f", Cell.int 10, Cell.int 11, Cell.int 20, Cell.int 21],
             [Cell.int 2, Cell.str "m", Cell.int 12, Cell.int 13, Cell.int 22, Cell.int 23]])
          ((["WMC", "RT"] : List String).headD "") "_"
          (fun s => decide (s = "drugA" ∨ s = "drugB"))).length ∧
      (Table.mk ["id", "gender", "drug", "WMC", "RT"]
        [[Cell.int 1, Cell.str "f", Cell.str "drugA", Cell.int 10, Cell.int 20],
         [Cell.int 1, Cell.str "f", Cell.str "drugB", Cell.int 11, Cell.int 21],
         [Cell.int 2, Cell.str "m", Cell.str "drugA", Cell.int 12, Cell.int 22],
         [Cell.int 2, Cell.str "m", Cell.str "drugB", Cell.int 13, Cell.int 23]]).names =
        (idIdxOf
            (Table.mk ["id", "gender", "WMC_drugA", "WMC_drugB", "RT_drugA", "RT_drugB"]
              [[Cell.int 1, Cell.str "f", Cell.int 10, Cell.int 11, Cell.int 20, Cell.int 21],
               [Cell.int 2, Cell.str "m", Cell.int 12, Cell.int 13, Cell.int 22, Cell.int 23]])
            ["id", "gender"]).map
          (fun i =>
            (Table.mk ["id", "gender", "WMC_drugA", "WMC_drugB", "RT_drugA", "RT_drugB"]
              [[Cell.int 1, Cell.str "f", Cell.int 10, Cell.int 11, Cell.int 20, Cell.int 21],
               [Cell.int 2, Cell.str "m", Cell.int 12, Cell.int 13, Cell.int 22, Cell.int 23]]).names.getD i "") ++
          ["drug"] ++ ["WMC", "RT"]) :=
  ⟨by decide,
   wideToLong_shape
     (Table.mk ["id", "gender", "WMC_drugA", "WMC_drugB", "RT_drugA", "RT_drugB"]
       [[Cell.int 1, Cell.str "f", Cell.int 10, Cell.int 11, Cell.int 20, Cell.int 21],
        [Cell.int 2, Cell.str "m", Cell.int 12, Cell.int 13, Cell.int 22, Cell.int 23]])
     ["WMC", "RT"] ["id", "gender"] "drug" "_"
     (fun s => decide (s = "drugA" ∨ s = "drugB"))
     (Table.mk ["id", "gender", "drug", "WMC", "RT"]
       [[Cell.int 1, Cell.str "f", Cell.str "drugA", Cell.int 10, Cell.int 20],
        [Cell.int 1, Cell.str "f", Cell.str "drugB", Cell.int 11, Cell.int 21],
        [Cell.int 2, Cell.str "m", Cell.str "drugA", Cell.int 12, Cell.int 22],
        [Cell.int 2, Cell.str "m", Cell.str "drugB", Cell.int 13, Cell.int 23]])
     (by decide)⟩

/-! ## dedupFirst lemmas -/

theorem dedupFirst_filter {α : Type} [DecidableEq α] (p : α → Bool) (l : List α) :
    (dedupFirst l).filter p = dedupFirst (l.filter p) := by
  induction l with
  | nil => rfl
  | cons a l ih =>
      by_cases hpa : p a = true
      · rw [dedupFirst, List.filter_cons, if_pos hpa, List.filter_cons, if_pos hpa, dedupFirst]
        congr 1
        rw [List.filter_filter]
        have hc : (fun x => p x && decide (x ≠ a)) = (fun x => decide (x ≠ a) && p x) := by
          funext x
          rw [Bool.and_comm]
        rw [hc, ← List.filter_filter, ih]
      · rw [dedupFirst, List.filter_cons, if_neg hpa, List.filter_cons, if_neg hpa,
          List.filter_filter, ← ih]
        congr 1
        funext b
        by_cases hba : b = a
        · subst hba
          simp [hpa]
        · simp [hba]

theorem dedupFirst_append {α : Type} [DecidableEq α] (l₁ l₂ : List α) :
    dedupFirst (l₁ ++ l₂) =
      dedupFirst l₁ ++ (dedupFirst l₂).filter (fun b => decide (b ∉ l₁)) := by
  induction l₁ with
  | nil =>
      rw [List.nil_append, dedupFirst, List.nil_append, List.filter_eq_self.mpr]
      intro b _
      simp
  | cons a l ih =>
      rw [List.cons_append, dedupFirst, ih, List.filter_append, dedupFirst, List.cons_append]
      congr 2
      rw [List.filter_filter]
      congr 1
      funext b
      by_cases hba : b = a
      · subst hba
        simp
      · simp [hba]

theorem mem_of_dedupFirst {α : Type} [DecidableEq α] {x : α} :
    ∀ {l : List α}, x ∈ dedupFirst l → x ∈ l := by
  intro l
  induction l with
  | nil => intro h; cases h
  | cons a l ih =>
      intro h
      rw [dedupFirst] at h
      rcases List.mem_cons.mp h with rfl | h2
      · exact List.mem_cons_self _ _
      · exact List.mem_cons_of_mem _ (ih (List.mem_filter.mp h2).1)

theorem dedupFirst_eq_self {α : Type} [DecidableEq α] {l : List α} (h : l.Nodup) :
    dedupFirst l = l := by
  induction l with
  | nil => rfl
  | cons a l ih =>
      rw [List.nodup_cons] at h
      rw [dedupFirst, ih h.2, List.filter_eq_self.mpr]
      intro b hb
      exact decide_eq_true (fun hba => h.1 (hba ▸ hb))

theorem dedupFirst_append_subset {α : Type} [DecidableEq α] (l₁ l₂ : List α)
    (hsub : ∀ x ∈ l₂, x ∈ l₁) : dedupFirst (l₁ ++ l₂) = dedupFirst l₁ := by
  rw [dedupFirst_append]
  have hnil : (dedupFirst l₂).filter (fun b => decide (b ∉ l₁)) = [] := by
    rw [List.filter_eq_nil_iff]
    intro b hb
    simp only [decide_eq_true_eq, Decidable.not_not]
    exact hsub b (mem_of_dedupFirst hb)
  rw [hnil, List.append_nil]

theorem dedupFirst_replicate {α : Type} [DecidableEq α] (n : Nat) (c : α) (hn : n ≠ 0) :
    dedupFirst (List.replicate n c) = [c] := by
  cases n with
  | zero => exact absurd rfl hn
  | succ m =>
      rw [List.replicate_succ, dedupFirst]
      have hnil : (dedupFirst (List.replicate m c)).filter (fun b => decide (b ≠ c)) = [] := by
        rw [List.filter_eq_nil_iff]
        intro b hb
        have : b = c := (List.mem_replicate.mp (mem_of_dedupFirst hb)).2
        simp [this]
      rw [hnil]

theorem dedupFirst_flatMap_replicate {α β : Type} [DecidableEq α] (bs : List β)
    (f : β → α) (n : Nat) (hn : n ≠ 0) (hnd : (bs.map f).Nodup) :
    dedupFirst (bs.flatMap (fun b => List.replicate n (f b))) = bs.map f := by
  induction bs with
  | nil => rfl
  | cons b bs ih =>
      rw [List.map_cons, List.nodup_cons] at hnd
      rw [List.flatMap_cons, dedupFirst_append, dedupFirst_replicate n (f b) hn,
        ih hnd.2, List.map_cons]
      have hkeep : (bs.map f).filter (fun x => decide (x ∉ List.replicate n (f b))) =
          bs.map f := by
        rw [List.filter_eq_self]
        intro x hx
        have hxb : x ≠ f b := fun he => hnd.1 (he ▸ hx)
        simp [List.mem_replicate, hxb]
      rw [hkeep]
      rfl

/-! ## indexOf lemmas -/

theorem indexOf_append_self {α : Type} [DecidableEq α] :
    ∀ (xs ys : List α), xs.Nodup →
      xs.map (fun n => List.indexOf n (xs ++ ys)) = List.range xs.length := by
  intro xs
  induction xs with
  | nil => intro ys _; rfl
  | cons a xs ih =>
      intro ys h
      rw [List.nodup_cons] at h
      rw [List.map_cons, List.cons_append, List.indexOf_cons_self, List.length_cons,
        List.range_succ_eq_map]
      congr 1
      have hpt : xs.map (fun n => List.indexOf n (a :: (xs ++ ys))) =
          xs.map (fun n => (List.indexOf n (xs ++ ys)).succ) := by
        apply List.map_congr_left
        intro n hn
        exact List.indexOf_cons_ne _ (fun he => h.1 (he ▸ hn))
      rw [hpt, ← ih ys h.2, List.map_map]
      rfl

theorem indexOf_append_not_mem {α : Type} [DecidableEq α] {x : α} :
    ∀ (xs ys : List α), x ∉ xs →
      List.indexOf x (xs ++ ys) = xs.length + List.indexOf x ys := by
  intro xs
  induction xs with
  | nil => intro ys _; simp
  | cons a xs ih =>
      intro ys h
      have hax : a ≠ x := fun he => h (he ▸ List.mem_cons_self a xs)
      rw [List.cons_append, List.indexOf_cons_ne _ hax,
        ih ys (fun hm => h (List.mem_cons_of_mem a hm)), List.length_cons]
      omega

/-! ## The Reshaper: pivot (spec §4.7; source `pd.pivot(df_long, index=['id'],
columns='drug', values=['gender','WMC','RT'])`) -/

/-- The output column name contributed by a label cell. -/
def labelName : Cell → String
  | Cell.str s => s
  | Cell.int n => toString n
  | Cell.num q => toString q
  | Cell.bool b => toString b
  | Cell.missing => ""

/-- Output column naming of `pivot`: with a single value column the label
alone names the column; with several, value and label are crossed. -/
def pivotColName (vs : List String) (v : String) (l : Cell) : String :=
  if vs.length ≤ 1 then labelName l else v ++ "_" ++ labelName l

/-- Modelled from the spec (§4.7 `pivot`, not itself under `src/`): group
rows by the index columns (distinct keys in first-appearance order), one
output column per distinct value of the label column crossed with each
value column; fails with `DuplicateKey` when two rows share the same
(index, label) combination; missing combinations become `Missing`. -/
def pivot (lt : Table) (indexNames : List String) (colName : String)
    (valueNames : List String) : Except TableError Table :=
  let iIdx := indexNames.map (fun n => List.indexOf n lt.names)
  let cIdx := List.indexOf colName lt.names
  let key := fun r : List Cell => projCells iIdx r
  let lab := fun r : List Cell => r.getD cIdx Cell.missing
  let labels := dedupFirst (lt.rows.map lab)
  if (lt.rows.map (fun r => (key r, lab r))).Nodup then
    Except.ok
      { names := indexNames ++ valueNames.flatMap (fun v =>
          labels.map (fun l => pivotColName valueNames v l)),
        rows := (dedupFirst (lt.rows.map key)).map (fun kk =>
          kk ++ valueNames.flatMap (fun v =>
            labels.map (fun l =>
              match lt.rows.find? (fun r => decide (key r = kk ∧ lab r = l)) with
              | some r => r.getD (List.indexOf v lt.names) Cell.missing
              | none => Cell.missing))) }
  else Except.error TableError.duplicateKey

/-- Reorder/select the columns of a table by a list of column positions. -/
def selectCols (t : Table) (idxs : List Nat) : Table :=
  { names := idxs.map (fun i => t.names.getD i ""),
    rows := t.rows.map (fun r => projCells idxs r) }

theorem projCells_append (idxs₁ idxs₂ : List Nat) (r : List Cell) :
    projCells (idxs₁ ++ idxs₂) r = projCells idxs₁ r ++ projCells idxs₂ r :=
  List.map_append _ _ _

theorem projCells_range_append (a b : List Cell) :
    projCells (List.range a.length) (a ++ b) = a := by
  apply List.ext_getElem
  · simp [projCells]
  · intro i h1 h2
    simp only [projCells, List.getElem_map, List.getElem_range]
    rw [List.getD_append _ _ _ _ h2, List.getD_eq_getElem _ _ h2]

theorem getD_append_len (a : List Cell) (x : Cell) (rest : List Cell) (d : Cell) :
    (a ++ x :: rest).getD a.length d = x := by
  rw [List.getD_append_right _ _ _ _ (Nat.le_refl _), Nat.sub_self]
  rfl

theorem getD_append_len_succ (a : List Cell) (x y : Cell) (rest : List Cell) (d : Cell) :
    (a ++ x :: y :: rest).getD (a.length + 1) d = y := by
  rw [List.getD_append_right _ _ _ _ (Nat.le_succ_of_le (Nat.le_refl _))]
  have h1 : a.length + 1 - a.length = 1 := by omega
  rw [h1]
  rfl

theorem find?_eq_self_of_nodup_map {α β : Type} [DecidableEq α] (f : β → α) :
    ∀ (l : List β) (b₀ : β), b₀ ∈ l → (l.map f).Nodup →
      l.find? (fun b => decide (f b = f b₀)) = some b₀ := by
  intro l
  induction l with
  | nil =>
      intro b₀ h
      cases h
  | cons a l ih =>
      intro b₀ hb hnd
      rw [List.map_cons, List.nodup_cons] at hnd
      by_cases hfa : f a = f b₀
      · have hab : a = b₀ := by
          rcases List.mem_cons.mp hb with rfl | hbl
          · rfl
          · exact absurd (hfa ▸ List.mem_map_of_mem f hbl) hnd.1
        subst hab
        rw [List.find?_cons_of_pos _ (by simp)]
      · have hb' : b₀ ∈ l := by
          rcases List.mem_cons.mp hb with rfl | hbl
          · exact absurd rfl hfa
          · exact hbl
        rw [List.find?_cons_of_neg _ (by simp [hfa]), ih b₀ hb' hnd.2]

/-! ## Round trip: melt then pivot -/

theorem idNames_nodup (t : Table) (ids : List String) (h : t.names.Nodup) :
    (idNames t ids).Nodup := by
  rw [idNames, idIdx_names]
  exact h.filter _

theorem idNames_subset (t : Table) (ids : List String) :
    ∀ n ∈ idNames t ids, n ∈ t.names := by
  intro n hn
  rw [idNames, idIdx_names] at hn
  exact (List.mem_filter.mp hn).1

theorem melt_key_eq (t : Table) (ids : List String) (d : Nat) (r : List Cell) :
    projCells (List.range (idNames t ids).length) (meltRow t ids d r) =
      projCells (idIdxOf t ids) r := by
  have hl : (idNames t ids).length = (projCells (idIdxOf t ids) r).length := by
    rw [idNames, projCells, List.length_map, List.length_map]
  rw [meltRow, hl]
  exact projCells_range_append _ _

theorem melt_lab_eq (t : Table) (ids : List String) (d : Nat) (r : List Cell) :
    (meltRow t ids d r).getD (idNames t ids).length Cell.missing =
      Cell.str (t.names.getD d "") := by
  have hl : (idNames t ids).length = (projCells (idIdxOf t ids) r).length := by
    rw [idNames, projCells, List.length_map, List.length_map]
  rw [meltRow, hl]
  exact getD_append_len _ _ _ _

theorem melt_val_eq (t : Table) (ids : List String) (d : Nat) (r : List Cell) :
    (meltRow t ids d r).getD ((idNames t ids).length + 1) Cell.missing =
      r.getD d Cell.missing := by
  have hl : (idNames t ids).length = (projCells (idIdxOf t ids) r).length := by
    rw [idNames, projCells, List.length_map, List.length_map]
  rw [meltRow, hl]
  exact getD_append_len_succ _ _ _ _ _

theorem melt_keys_list (t : Table) (ids : List String) :
    (melt t ids).rows.map
        (fun r => projCells (List.range (idNames t ids).length) r) =
      (dataIdxOf t ids).flatMap
        (fun _ => t.rows.map (projCells (idIdxOf t ids))) := by
  show ((dataIdxOf t ids).flatMap (fun d => t.rows.map (meltRow t ids d))).map _ = _
  rw [List.map_flatMap]
  congr 1
  funext d
  rw [List.map_map]
  congr 1
  funext r
  exact melt_key_eq t ids d r

theorem melt_labels_list (t : Table) (ids : List String) :
    (melt t ids).rows.map (fun r => r.getD (idNames t ids).length Cell.missing) =
      (dataIdxOf t ids).flatMap
        (fun d => List.replicate t.rows.length (Cell.str (t.names.getD d ""))) := by
  show ((dataIdxOf t ids).flatMap (fun d => t.rows.map (meltRow t ids d))).map _ = _
  rw [List.map_flatMap]
  congr 1
  funext d
  rw [List.map_map]
  have hpt : t.rows.map
      ((fun r => r.getD (idNames t ids).length Cell.missing) ∘ meltRow t ids d) =
      t.rows.map (Function.const (List Cell) (Cell.str (t.names.getD d ""))) := by
    apply List.map_congr_left
    intro r _
    exact melt_lab_eq t ids d r
  rw [hpt, List.map_const]

theorem nodup_getD_map (ns : List String) (h : ns.Nodup) (pos : List Nat)
    (hp : pos.Nodup) (hlt : ∀ i ∈ pos, i < ns.length) :
    (pos.map (fun i => ns.getD i "")).Nodup := by
  apply List.Nodup.map_on ?_ hp
  intro x hx y hy hxy
  rw [List.getD_eq_getElem _ _ (hlt x hx), List.getD_eq_getElem _ _ (hlt y hy)] at hxy
  exact (List.Nodup.getElem_inj_iff h).mp hxy

theorem dataIdx_nodup (t : Table) (ids : List String) : (dataIdxOf t ids).Nodup :=
  (List.nodup_range _).filter _

theorem dataIdx_lt (t : Table) (ids : List String) :
    ∀ d ∈ dataIdxOf t ids, d < t.names.length := by
  intro d hd
  exact List.mem_range.mp (List.mem_filter.mp hd).1

theorem idIdx_nodup (t : Table) (ids : List String) : (idIdxOf t ids).Nodup :=
  (List.nodup_range _).filter _

theorem idIdx_lt (t : Table) (ids : List String) :
    ∀ d ∈ idIdxOf t ids, d < t.names.length := by
  intro d hd
  exact List.mem_range.mp (List.mem_filter.mp hd).1

theorem dataNames_nodup (t : Table) (ids : List String) (h : t.names.Nodup) :
    ((dataIdxOf t ids).map (fun d => Cell.str (t.names.getD d ""))).Nodup := by
  have h1 : ((dataIdxOf t ids).map (fun d => t.names.getD d "")).Nodup :=
    nodup_getD_map t.names h _ (dataIdx_nodup t ids) (dataIdx_lt t ids)
  have h2 : (dataIdxOf t ids).map (fun d => Cell.str (t.names.getD d "")) =
      ((dataIdxOf t ids).map (fun d => t.names.getD d "")).map Cell.str := by
    rw [List.map_map]
    rfl
  rw [h2]
  exact h1.map (fun a b hab => Cell.str.inj hab)

theorem melt_keys_dedup (t : Table) (ids : List String)
    (hdata : dataIdxOf t ids ≠ [])
    (hkeys : (t.rows.map (projCells (idIdxOf t ids))).Nodup) :
    dedupFirst ((melt t ids).rows.map
        (fun r => projCells (List.range (idNames t ids).length) r)) =
      t.rows.map (projCells (idIdxOf t ids)) := by
  rw [melt_keys_list]
  cases hd : dataIdxOf t ids with
  | nil => exact absurd hd hdata
  | cons d0 D' =>
      rw [List.flatMap_cons, dedupFirst_append_subset]
      · exact dedupFirst_eq_self hkeys
      · intro x hx
        rcases List.mem_flatMap.mp hx with ⟨d, -, hxk⟩
        exact hxk

theorem melt_labels_dedup (t : Table) (ids : List String)
    (hrows : t.rows ≠ []) (hnodup : t.names.Nodup) :
    dedupFirst ((melt t ids).rows.map
        (fun r => r.getD (idNames t ids).length Cell.missing)) =
      (dataIdxOf t ids).map (fun d => Cell.str (t.names.getD d "")) := by
  rw [melt_labels_list]
  exact dedupFirst_flatMap_replicate _ _ _
    (fun h => hrows (List.length_eq_zero.mp h)) (dataNames_nodup t ids hnodup)

theorem dataNames_inj (t : Table) (ids : List String) (hnodup : t.names.Nodup) :
    ∀ a ∈ dataIdxOf t ids, ∀ b ∈ dataIdxOf t ids,
      t.names.getD a "" = t.names.getD b "" → a = b := by
  intro a ha b hb hab
  rw [List.getD_eq_getElem _ _ (dataIdx_lt t ids a ha),
    List.getD_eq_getElem _ _ (dataIdx_lt t ids b hb)] at hab
  exact (List.Nodup.getElem_inj_iff hnodup).mp hab

theorem melt_guard (t : Table) (ids : List String)
    (hnodup : t.names.Nodup)
    (hkeys : (t.rows.map (projCells (idIdxOf t ids))).Nodup) :
    ((melt t ids).rows.map (fun r =>
      (projCells (List.range (idNames t ids).length) r,
       r.getD (idNames t ids).length Cell.missing))).Nodup := by
  have hlist : (melt t ids).rows.map (fun r =>
      (projCells (List.range (idNames t ids).length) r,
       r.getD (idNames t ids).length Cell.missing)) =
      (dataIdxOf t ids).flatMap (fun d =>
        (t.rows.map (projCells (idIdxOf t ids))).map
          (fun k => (k, Cell.str (t.names.getD d "")))) := by
    show ((dataIdxOf t ids).flatMap (fun d => t.rows.map (meltRow t ids d))).map _ = _
    rw [List.map_flatMap]
    congr 1
    funext d
    rw [List.map_map, List.map_map]
    congr 1
    funext r
    show (projCells (List.range (idNames t ids).length) (meltRow t ids d r),
        (meltRow t ids d r).getD (idNames t ids).length Cell.missing) = _
    rw [melt_key_eq, melt_lab_eq]
    rfl
  rw [hlist, List.nodup_flatMap]
  constructor
  · intro d _
    exact hkeys.map (fun a b hab => (Prod.ext_iff.mp hab).1)
  · apply List.Pairwise.imp_of_mem ?_ (dataIdx_nodup t ids)
    intro a b ha hb hab x hxa hxb
    rcases List.mem_map.mp hxa with ⟨k1, -, rfl⟩
    rcases List.mem_map.mp hxb with ⟨k2, -, hx2⟩
    have hsnd : Cell.str (t.names.getD b "") = Cell.str (t.names.getD a "") :=
      (Prod.ext_iff.mp hx2).2
    exact hab (dataNames_inj t ids hnodup a ha b hb (Cell.str.inj hsnd).symm)

theorem find_in_blocks (t : Table) (ids : List String) (r₀ : List Cell)
    (hr : r₀ ∈ t.rows)
    (hkeys : (t.rows.map (projCells (idIdxOf t ids))).Nodup) :
    ∀ (D : List Nat) (d₀ : Nat), d₀ ∈ D →
      (∀ d ∈ D, t.names.getD d "" = t.names.getD d₀ "" → d = d₀) →
      (D.flatMap (fun d => t.rows.map (meltRow t ids d))).find?
          (fun r => decide
            (projCells (List.range (idNames t ids).length) r =
                projCells (idIdxOf t ids) r₀ ∧
              r.getD (idNames t ids).length Cell.missing =
                Cell.str (t.names.getD d₀ ""))) =
        some (meltRow t ids d₀ r₀) := by
  intro D
  induction D with
  | nil =>
      intro d₀ hd
      cases hd
  | cons d D' ih =>
      intro d₀ hd hinj
      rw [List.flatMap_cons, List.find?_append]
      by_cases hdd : d = d₀
      · subst hdd
        have hblock : (t.rows.map (meltRow t ids d)).find?
            (fun r => decide
              (projCells (List.range (idNames t ids).length) r =
                  projCells (idIdxOf t ids) r₀ ∧
                r.getD (idNames t ids).length Cell.missing =
                  Cell.str (t.names.getD d ""))) = some (meltRow t ids d r₀) := by
          rw [List.find?_map]
          have hfn : ((fun r => decide
              (projCells (List.range (idNames t ids).length) r =
                  projCells (idIdxOf t ids) r₀ ∧
                r.getD (idNames t ids).length Cell.missing =
                  Cell.str (t.names.getD d ""))) ∘ meltRow t ids d) =
              (fun r => decide
                (projCells (idIdxOf t ids) r = projCells (idIdxOf t ids) r₀)) := by
            funext r
            show decide
              (projCells (List.range (idNames t ids).length) (meltRow t ids d r) =
                  projCells (idIdxOf t ids) r₀ ∧
                (meltRow t ids d r).getD (idNames t ids).length Cell.missing =
                  Cell.str (t.names.getD d "")) = _
            rw [melt_key_eq, melt_lab_eq]
            simp
          rw [hfn, find?_eq_self_of_nodup_map (projCells (idIdxOf t ids)) t.rows r₀ hr hkeys]
          rfl
        rw [hblock]
        rfl
      · have hnone : (t.rows.map (meltRow t ids d)).find?
            (fun r => decide
              (projCells (List.range (idNames t ids).length) r =
                  projCells (idIdxOf t ids) r₀ ∧
                r.getD (idNames t ids).length Cell.missing =
                  Cell.str (t.names.getD d₀ ""))) = none := by
          rw [List.find?_eq_none]
          intro x hx
          rcases List.mem_map.mp hx with ⟨r, -, rfl⟩
          intro hcontra
          rw [decide_eq_true_eq] at hcontra
          have h2 := hcontra.2
          rw [melt_lab_eq] at h2
          exact hdd (hinj d (List.mem_cons_self d D') (Cell.str.inj h2))
        rw [hnone, Option.none_or]
        have hd' : d₀ ∈ D' := by
          rcases List.mem_cons.mp hd with rfl | hmem
          · exact absurd rfl hdd
          · exact hmem
        exact ih d₀ hd' (fun d' hd'' => hinj d' (List.mem_cons_of_mem d hd''))

/-- C1 (amended): for a Table with at least one row, at least one non-id
column, duplicate-free column names avoiding the reserved `variable` /
`value` names, and unique id-column combinations, `melt` followed by the
inverse `pivot` (index = the id columns, columns = the label column,
values = the measured-value column) recovers the original Table up to
column order: the result is exactly the original columns permuted to id
columns first. -/
theorem melt_pivot_round_trip (t : Table) (ids : List String)
    (hnodup : t.names.Nodup) (hrows : t.rows ≠ [])
    (hdata : dataIdxOf t ids ≠ [])
    (hvar : "variable" ∉ t.names) (hval : "value" ∉ t.names)
    (hkeys : (t.rows.map (projCells (idIdxOf t ids))).Nodup) :
    pivot (melt t ids) (idNames t ids) "variable" ["value"] =
      Except.ok (selectCols t (idIdxOf t ids ++ dataIdxOf t ids)) ∧
    (idIdxOf t ids ++ dataIdxOf t ids).Perm (List.range t.names.length) := by
  refine ⟨?_, List.filter_append_perm _ _⟩
  have hiIdx : (idNames t ids).map (fun n => List.indexOf n (melt t ids).names) =
      List.range (idNames t ids).length := by
    show (idNames t ids).map
        (fun n => List.indexOf n (idNames t ids ++ ["variable", "value"])) = _
    exact indexOf_append_self _ _ (idNames_nodup t ids hnodup)
  have hvarP : "variable" ∉ idNames t ids := fun h => hvar (idNames_subset t ids _ h)
  have hvalP : "value" ∉ idNames t ids := fun h => hval (idNames_subset t ids _ h)
  have hcIdx : List.indexOf "variable" (melt t ids).names = (idNames t ids).length := by
    show List.indexOf "variable" (idNames t ids ++ ["variable", "value"]) = _
    rw [indexOf_append_not_mem _ _ hvarP, List.indexOf_cons_self]
    omega
  have hvIdx : List.indexOf "value" (melt t ids).names = (idNames t ids).length + 1 := by
    show List.indexOf "value" (idNames t ids ++ ["variable", "value"]) = _
    rw [indexOf_append_not_mem _ _ hvalP, List.indexOf_cons_ne _ (by decide),
      List.indexOf_cons_self]
  simp only [pivot, hiIdx, hcIdx, hvIdx]
  rw [if_pos (melt_guard t ids hnodup hkeys)]
  refine congrArg Except.ok ?_
  rw [selectCols, Table.mk.injEq]
  constructor
  · simp only [melt_labels_dedup t ids hrows hnodup, List.flatMap_cons,
      List.flatMap_nil, List.append_nil, List.map_map]
    have hnames : ((dataIdxOf t ids).map
        ((fun l => pivotColName ["value"] "value" l) ∘
          (fun d => Cell.str (t.names.getD d "")))) =
        (dataIdxOf t ids).map (fun d => t.names.getD d "") := by
      apply List.map_congr_left
      intro d _
      simp [pivotColName, labelName]
    rw [hnames, List.map_append]
    rfl
  · simp only [melt_keys_dedup t ids hdata hkeys,
      melt_labels_dedup t ids hrows hnodup, List.flatMap_cons,
      List.flatMap_nil, List.append_nil, List.map_map, hvIdx]
    apply List.map_congr_left
    intro r₀ hr₀
    show projCells (idIdxOf t ids) r₀ ++ _ = projCells (idIdxOf t ids ++ dataIdxOf t ids) r₀
    rw [projCells_append]
    congr 1
    apply List.map_congr_left
    intro d₀ hd₀
    have hml : (melt t ids).rows =
        (dataIdxOf t ids).flatMap (fun d => t.rows.map (meltRow t ids d)) := rfl
    show (match (melt t ids).rows.find? (fun r => decide
        (projCells (List.range (idNames t ids).length) r =
            projCells (idIdxOf t ids) r₀ ∧
          r.getD (idNames t ids).length Cell.missing =
            Cell.str (t.names.getD d₀ ""))) with
      | some r => r.getD ((idNames t ids).length + 1) Cell.missing
      | none => Cell.missing) = r₀.getD d₀ Cell.missing
    rw [hml, find_in_blocks t ids r₀ hr₀ hkeys (dataIdxOf t ids) d₀ hd₀
      (fun d' hd'' heq => dataNames_inj t ids hnodup d' hd'' d₀ hd₀ heq)]
    exact melt_val_eq t ids d₀ r₀

/-- C1 counterexample: on a Table with columns `id, x` and no rows, the
id-column combinations are (vacuously) unique, yet melt followed by the
inverse pivot yields a table with a single column `id` — the measured
column `x` is lost, so the result does not equal the original up to column
order (the column counts differ). -/
theorem melt_pivot_round_trip_counterexample :
    ((Table.mk ["id", "x"] []).rows.map
        (projCells (idIdxOf (Table.mk ["id", "x"] []) ["id"]))).Nodup ∧
    pivot (melt (Table.mk ["id", "x"] []) ["id"])
        (idNames (Table.mk ["id", "x"] []) ["id"]) "variable" ["value"] =
      Except.ok (Table.mk ["id"] []) ∧
    (Table.mk ["id"] []).colCount ≠ (Table.mk ["id", "x"] []).colCount :=
  ⟨by decide, by decide, by decide⟩

theorem melt_pivot_round_trip_witness :
    (["id", "x", "y"] : List String).Nodup ∧
    (Table.mk ["id", "x", "y"]
      [[Cell.int 1, Cell.int 10, Cell.int 20],
       [Cell.int 2, Cell.int 11, Cell.int 21]]).rows ≠ [] ∧
    dataIdxOf (Table.mk ["id", "x", "y"]
      [[Cell.int 1, Cell.int 10, Cell.int 20],
       [Cell.int 2, Cell.int 11, Cell.int 21]]) ["id"] ≠ [] ∧
    "variable" ∉ (["id", "x", "y"] : List String) ∧
    "value" ∉ (["id", "x", "y"] : List String) ∧
    ((Table.mk ["id", "x", "y"]
      [[Cell.int 1, Cell.int 10, Cell.int 20],
       [Cell.int 2, Cell.int 11, Cell.int 21]]).rows.map
        (projCells (idIdxOf (Table.mk ["id", "x", "y"]
          [[Cell.int 1, Cell.int 10, Cell.int 20],
           [Cell.int 2, Cell.int 11, Cell.int 21]]) ["id"]))).Nodup ∧
    (pivot (melt (Table.mk ["id", "x", "y"]
        [[Cell.int 1, Cell.int 10, Cell.int 20],
         [Cell.int 2, Cell.int 11, Cell.int 21]]) ["id"])
        (idNames (Table.mk ["id", "x", "y"]
          [[Cell.int 1, Cell.int 10, Cell.int 20],
           [Cell.int 2, Cell.int 11, Cell.int 21]]) ["id"]) "variable" ["value"] =
      Except.ok (selectCols (Table.mk ["id", "x", "y"]
        [[Cell.int 1, Cell.int 10, Cell.int 20],
         [Cell.int 2, Cell.int 11, Cell.int 21]])
        (idIdxOf (Table.mk ["id", "x", "y"]
          [[Cell.int 1, Cell.int 10, Cell.int 20],
           [Cell.int 2, Cell.int 11, Cell.int 21]]) ["id"] ++
         dataIdxOf (Table.mk ["id", "x", "y"]
          [[Cell.int 1, Cell.int 10, Cell.int 20],
           [Cell.int 2, Cell.int 11, Cell.int 21]]) ["id"])) ∧
    (idIdxOf (Table.mk ["id", "x", "y"]
        [[Cell.int 1, Cell.int 10, Cell.int 20],
         [Cell.int 2, Cell.int 11, Cell.int 21]]) ["id"] ++
      dataIdxOf (Table.mk ["id", "x", "y"]
        [[Cell.int 1, Cell.int 10, Cell.int 20],
         [Cell.int 2, Cell.int 11, Cell.int 21]]) ["id"]).Perm
      (List.range (["id", "x", "y"] : List String).length)) :=
  ⟨by decide, by decide, by decide, by decide, by decide, by decide,
   melt_pivot_round_trip (Table.mk ["id", "x", "y"]
      [[Cell.int 1, Cell.int 10, Cell.int 20],
       [Cell.int 2, Cell.int 11, Cell.int 21]]) ["id"]
     (by decide) (by decide) (by decide) (by decide) (by decide) (by decide)⟩
